import Mathlib

/-!
Shallow embedding of the QR-to-spreadsheet pipeline (`qr_processor.py`):
row normalization (`normalize_row`), PDF date extraction (`extract_pdf_date`),
QR decoding bookkeeping (`decode_qr_from_image`), per-image processing
(`process_single_image`) and the sheet synchronisation (`update_google_sheet`).
Python strings are modelled as Lean `String`s; the regular expressions of the
source are compiled by hand into deterministic matchers (each regex used by the
code has adjacent constructs over disjoint character sets, so greedy matching
without backtracking is exact).
-/

namespace Qr

/-- The whitespace class used by Python's `str.strip` and the regex `\s`
(modelled over the usual ASCII/Latin-1 whitespace characters). -/
def pyIsSpace (c : Char) : Bool :=
  c == ' ' || c == '\t' || c == '\n' || c == '\x0b' || c == '\x0c' || c == '\r' ||
  c == '\x1c' || c == '\x1d' || c == '\x1e' || c == '\x1f' || c == '\x85' || c == '\u00a0'

/-- Python `str.strip()` on a character list. -/
def pyStripList (l : List Char) : List Char :=
  ((l.dropWhile pyIsSpace).reverse.dropWhile pyIsSpace).reverse

/-- Python `str.strip()`. -/
def pyStrip (s : String) : String := String.mk (pyStripList s.toList)

/-- One character of `str.replace(soft hyphen, "-")`. -/
def softToHyphen (c : Char) : Char := if c == '\u00ad' then '-' else c

/-- Python `s.replace(soft hyphen, "-")` (the pattern is a single character). -/
def replaceSoft (s : String) : String := String.mk (s.toList.map softToHyphen)

/-- Case folding used to model `re.IGNORECASE`: ASCII letters and the Russian
alphabet (А..Я and Ё) are lowered; other characters are unchanged. -/
def lowerRu (c : Char) : Char :=
  if 'A' ≤ c ∧ c ≤ 'Z' then Char.ofNat (c.toNat + 32)
  else if 'А' ≤ c ∧ c ≤ 'Я' then Char.ofNat (c.toNat + 32)
  else if c == 'Ё' then 'ё'
  else c

/-- Test that `p` is a prefix of `l` (character lists). -/
def isPrefixList : List Char → List Char → Bool
  | [], _ => true
  | _ :: _, [] => false
  | p :: ps, c :: cs => p == c && isPrefixList ps cs

/-- Test that `pat` occurs as a contiguous substring of `l`. -/
def containsSub (pat : List Char) : List Char → Bool
  | [] => isPrefixList pat []
  | c :: cs => isPrefixList pat (c :: cs) || containsSub pat cs

/-- After a `№`, the regex fragment `\s*п/п` (on already-lowercased text). -/
def ppAfterNum (l : List Char) : Bool :=
  isPrefixList ['п', '/', 'п'] (l.dropWhile pyIsSpace)

/-- The regex fragment `№\s*п/п` occurring anywhere (on lowercased text). -/
def matchNumPP : List Char → Bool
  | [] => false
  | c :: cs => (c == '№' && ppAfterNum cs) || matchNumPP cs

/-- The header/noise filter of `normalize_row`:
`re.search(r"№\s*п/п|Номер места|Вес|Заказ", raw, re.IGNORECASE)` as a Boolean. -/
def headerMatch (raw : String) : Bool :=
  let low := raw.toList.map lowerRu
  matchNumPP low || containsSub ("номер места".toList) low ||
    containsSub ("вес".toList) low || containsSub ("заказ".toList) low

/-- Helper for `re.split(r'\s+', s)`: accumulates the current token (reversed);
the flag records whether the previous character belonged to a whitespace run
(so that a maximal run produces a single split). -/
def splitWsGo : List Char → List Char → Bool → List String
  | [], acc, _ => [String.mk acc.reverse]
  | c :: cs, acc, prevSpace =>
    if pyIsSpace c then
      if prevSpace then splitWsGo cs [] true
      else String.mk acc.reverse :: splitWsGo cs [] true
    else
      splitWsGo cs (c :: acc) false

/-- Python `re.split(r'\s+', s)`. -/
def pySplitWs (s : String) : List String := splitWsGo s.toList [] false

/-- Python `re.sub(r'\s+', '', s)`: delete every whitespace character. -/
def removeWs (s : String) : String :=
  String.mk (s.toList.filter (fun c => !pyIsSpace c))

/-- A raw row candidate as produced by `extract_table_rows_from_pdf`: the dict
with keys `source_pdf`, `pdf_date` and one of `raw_cells` / `raw_text`
(an absent `raw_cells` key is the empty list, an absent `raw_text` is `none`). -/
structure RawItem where
  source_pdf : String
  pdf_date : String
  raw_cells : List String
  raw_text : Option String
deriving DecidableEq, Repr

/-- The normalized record returned by `normalize_row`. -/
structure NormOut where
  source_pdf : String
  pdf_date : String
  seq : String
  place_number : String
  weight : String
  order : String
deriving DecidableEq, Repr

/-- The flat text of a raw row:
`raw = (item.get("raw_text") or " | ".join(item.get("raw_cells", [])))
.replace(soft hyphen, "-").strip()` (Python's `or`
falls through on `None` and on the empty string). -/
def flatRaw (item : RawItem) : String :=
  let raw0 := match item.raw_text with
    | some t => if t == "" then String.intercalate " | " item.raw_cells else t
    | none => String.intercalate " | " item.raw_cells
  pyStrip (replaceSoft raw0)

/-- Per-cell cleanup in `normalize_row`: `str(c).strip().replace(soft hyphen, "-")`. -/
def cleanCell (c : String) : String := replaceSoft (pyStrip c)

/-- The text-token branch of `normalize_row`: split the flat text on `\s+`,
require at least 4 tokens. -/
def fromTokens (item : RawItem) (raw : String) : Option NormOut :=
  let tokens := pySplitWs raw
  if 4 ≤ tokens.length then
    some { source_pdf := item.source_pdf, pdf_date := item.pdf_date,
           seq := tokens.getD 0 "", place_number := tokens.getD 1 "",
           weight := tokens.getD 2 "",
           order := removeWs (String.intercalate " " (tokens.drop 3)) }
  else
    none

/-- The function `normalize_row` of `qr_processor.py`: header filter, then the cell branch
(when `raw_cells` is non-empty and has at least 3 cells), falling through to
the token branch otherwise. -/
def normalize_row (item : RawItem) : Option NormOut :=
  let raw := flatRaw item
  if headerMatch raw then none
  else if item.raw_cells.isEmpty then fromTokens item raw
  else
    let cells := item.raw_cells.map cleanCell
    if 3 ≤ cells.length then
      some { source_pdf := item.source_pdf, pdf_date := item.pdf_date,
             seq := cells.getD 0 "", place_number := cells.getD 1 "",
             weight := cells.getD 2 "",
             order := removeWs (if 3 < cells.length then String.intercalate " " (cells.drop 3) else "") }
    else
      fromTokens item raw

/-- One row of the dataframe handed to `update_google_sheet`, already reordered
to `columns_order = ["uploaded_date", "pdf_date", "source_pdf", "seq",
"place_number", "weight", "order"]`. -/
structure DfRow where
  uploaded_date : String
  pdf_date : String
  source_pdf : String
  seq : String
  place_number : String
  weight : String
  order : String
deriving DecidableEq, Repr

/-- The 7-cell sheet row `row.tolist()` under the fixed column order. -/
def toSheetRow (r : DfRow) : List String :=
  [r.uploaded_date, r.pdf_date, r.source_pdf, r.seq, r.place_number, r.weight, r.order]

/-- The header row written on first population of the worksheet. -/
def headersRu : List String :=
  ["Дата загрузки", "Дата приема-передачи", "Источник PDF", "№ п/п", "Номер места", "Вес", "Заказ"]

/-- The cell of an existing sheet row used for the duplicate comparison:
`existing_row.get(existing_data[0][i] if len(existing_data[0]) > i else '', '')`.  The
dataframe of existing rows is indexed by the header names of row 0; with the
pairwise-distinct headers the sheet writes, the lookup resolves to the cell at
the same column position `i`, and to the default `''` when the header row is
too short. -/
def pairCell (hdr : List String) (erow : List String) (i : Nat) : String :=
  if i < hdr.length then erow.getD i "" else ""

/-- The duplicate test of one candidate against one existing row:
`str(row['place_number']) == str(existing_row.get(...4...)) and
str(row['order']) == str(existing_row.get(...6...))`. -/
def pairMatchB (hdr : List String) (r : DfRow) (erow : List String) : Bool :=
  r.place_number == pairCell hdr erow 4 && r.order == pairCell hdr erow 6

/-- The inner `for _, existing_row in existing_df.iterrows()` loop with its
early `break`: scans the existing rows for a pair match. -/
def isDuplicateScan (hdr : List String) (erows : List (List String)) (r : DfRow) : Bool :=
  match erows with
  | [] => false
  | e :: rest => if pairMatchB hdr r e then true else isDuplicateScan hdr rest r

/-- The outer `for _, row in df_ordered.iterrows()` loop of
`update_google_sheet`: collects `new_rows`, the candidates that are not
duplicates of an existing row. -/
def computeNewRows (hdr : List String) (erows : List (List String)) : List DfRow → List DfRow
  | [] => []
  | r :: rest =>
    if isDuplicateScan hdr erows r then computeNewRows hdr erows rest
    else r :: computeNewRows hdr erows rest

/-- The effect of `update_google_sheet` on the worksheet contents
(`existing_data = worksheet.get_all_values()`): an empty sheet receives the
header row plus every dataframe row; a non-empty sheet receives
`append_rows(new_rows)`. -/
def update_google_sheet (store : List (List String)) (df : List DfRow) : List (List String) :=
  match store with
  | [] => headersRu :: df.map toSheetRow
  | hdr :: erows => (hdr :: erows) ++ (computeNewRows hdr erows df).map toSheetRow

/-- The (place_number, order) pair of a stored sheet row, by fixed column
position (4 and 6). -/
def pairOf (row : List String) : String × String := (row.getD 4 "", row.getD 6 "")

/-- The invariant claimed of the store: its data rows (everything below the
header row) carry pairwise distinct (place_number, order) pairs. -/
def noDupPairs (store : List (List String)) : Prop :=
  ((store.drop 1).map pairOf).Nodup

/-- One symbol reported by the barcode detector (`pyzbar.decode`): its
symbology tag and decoded text payload. -/
structure Barcode where
  btype : String
  bdata : String
deriving DecidableEq, Repr

/-- Python `url.rstrip(")\"'")`: strip any trailing `)`/`"`/`'` characters. -/
def rstripUrl (s : String) : String :=
  String.mk ((s.toList.reverse.dropWhile (fun c => c == ')' || c == '\"' || c == '\x27')).reverse)

/-- The matches of `re.findall(r"https?://[^\s]+", data)`: every non-overlapping leftmost
match.  A match starts at a `http://` or `https://` prefix and extends over
the maximal run of non-whitespace characters (which must reach past the
protocol part, since `[^\s]+` needs at least one character after `://`). -/
def findUrls : List Char → List String
  | [] => []
  | c :: cs =>
    let body := (c :: cs).takeWhile (fun ch => !pyIsSpace ch)
    if h : (isPrefixList "https://".toList (c :: cs) = true ∧ 9 ≤ body.length) ∨
           (isPrefixList "http://".toList (c :: cs) = true ∧ 8 ≤ body.length) then
      String.mk body :: findUrls ((c :: cs).drop body.length)
    else
      findUrls cs
  termination_by l => l.length
  decreasing_by
    · have hb : 1 ≤ ((c :: cs).takeWhile (fun ch => !pyIsSpace ch)).length := by
        rcases h with ⟨_, h9⟩ | ⟨_, h8⟩
        · exact le_trans (by norm_num) h9
        · exact le_trans (by norm_num) h8
      simp only [List.length_drop, List.length_cons]
      omega
    · simp

/-- The accumulating state of `decode_qr_from_image`: the sets `found_data`
and `found_urls`, modelled as duplicate-free lists in insertion order. -/
structure DecodeState where
  found_data : List String
  found_urls : List String
deriving DecidableEq, Repr

/-- Python `set.add`: append only when absent. -/
def insertNew (l : List String) (x : String) : List String :=
  if x ∈ l then l else l ++ [x]

/-- The body of `test_decode` for one detected symbol: only `QRCODE` symbols
count; an already-seen payload is skipped; otherwise the payload is recorded
and each URL found in it is stripped of trailing punctuation and added. -/
def recordBarcode (st : DecodeState) (b : Barcode) : DecodeState :=
  if b.btype == "QRCODE" then
    if b.bdata ∈ st.found_data then st
    else
      { found_data := st.found_data ++ [b.bdata],
        found_urls := (findUrls b.bdata.toList).foldl (fun acc u => insertNew acc (rstripUrl u)) st.found_urls }
  else st

/-- The inner `test_decode(image)`: run the detector on one (transformed) image and
record every symbol it reports. -/
def test_decode {α : Type} (detect : α → List Barcode) (st : DecodeState) (img : α) : DecodeState :=
  (detect img).foldl recordBarcode st

/-- The state after `decode_qr_from_image` has run its whole transform
battery.  `parsed` is the result of reading the input bytes (`none` when
`cv2.imdecode` fails or raises, i.e. the bytes are not an image); `battery`
abstracts the fixed ordered list of transformed images the source builds from
the parsed image (original, grayscale, the guarded rescales, the 15°-step
rotations, CLAHE, morphological open/close, adaptive and Otsu binarisation in
both polarities, bilateral filter, sharpening, gamma correction, histogram
equalisation and the four half-image crops); `detect` abstracts
`pyzbar.decode` on one image. -/
def decodeState {α : Type} (parsed : Option α) (battery : α → List α)
    (detect : α → List Barcode) : DecodeState :=
  match parsed with
  | none => { found_data := [], found_urls := [] }
  | some img => (battery img).foldl (test_decode detect) { found_data := [], found_urls := [] }

/-- The result of `decode_qr_from_image`: `return list(found_urls)` (the empty list when the
input is not a parseable image). -/
def decode_qr_from_image {α : Type} (parsed : Option α) (battery : α → List α)
    (detect : α → List Barcode) : List String :=
  (decodeState parsed battery detect).found_urls

/-- The per-URL `for idx, url in enumerate(urls)` loop of
`process_single_image`.  `step idx url` abstracts
`extract_table_rows_from_pdf(download_pdf_to_memory(url), source_name)` for
the URL at position `idx`: `.error` is any exception raised while fetching or
parsing, caught by the loop's `except ... continue`; `.ok items` is the list
of raw rows it extracted.  Normalization of the items is pure and appends the
non-`none` results to `all_rows`. -/
def processUrls (step : Nat → String → Except String (List RawItem)) :
    Nat → List String → List NormOut
  | _, [] => []
  | idx, u :: rest =>
    (match step idx u with
     | Except.ok items => items.filterMap normalize_row
     | Except.error _ => []) ++ processUrls step (idx + 1) rest

/-- The tuple `(success, qr_count, rows, error_message)` returned by
`process_single_image`. -/
structure ImageResult where
  success : Bool
  qr_count : Nat
  rows : List NormOut
  error : Option String
deriving DecidableEq, Repr

/-- The function `process_single_image` once the QR decode has produced `urls`: an empty
URL list short-circuits to `(True, 0, [], None)`; otherwise every URL is
processed with per-URL failure isolation and the call reports success. -/
def process_single_image (urls : List String)
    (step : Nat → String → Except String (List RawItem)) : ImageResult :=
  if urls.isEmpty then ⟨true, 0, [], none⟩
  else ⟨true, urls.length, processUrls step 0 urls, none⟩

/-- The regex fragment `\d{n}`: exactly `n` digits, returning them and the
rest of the input. -/
def splitDigits : Nat → List Char → Option (List Char × List Char)
  | 0, l => some ([], l)
  | _ + 1, [] => none
  | n + 1, c :: cs =>
    if c.isDigit then (splitDigits n cs).map (fun p => (c :: p.1, p.2)) else none

/-- A single mandatory literal character. -/
def expectChar (c : Char) : List Char → Option (List Char)
  | [] => none
  | d :: rest => if d == c then some rest else none

/-- The regex fragment `\s+`: one or more whitespace characters (greedy; the
following construct of every use is a digit, so maximal munch is exact). -/
def takeSpaces1 (l : List Char) : Option (List Char × List Char) :=
  let sp := l.takeWhile pyIsSpace
  if sp.isEmpty then none else some (sp, l.drop sp.length)

/-- The date regex `\d{2}\.\d{2}\.\d{4}\s+\d{2}:\d{2}:\d{2}` anchored at the
start of `l`, returning the matched text. -/
def matchDateAt (l : List Char) : Option String := do
  let (d1, r1) ← splitDigits 2 l
  let r2 ← expectChar '.' r1
  let (d2, r3) ← splitDigits 2 r2
  let r4 ← expectChar '.' r3
  let (d3, r5) ← splitDigits 4 r4
  let (sp, r6) ← takeSpaces1 r5
  let (t1, r7) ← splitDigits 2 r6
  let r8 ← expectChar ':' r7
  let (t2, r9) ← splitDigits 2 r8
  let r10 ← expectChar ':' r9
  let (t3, _) ← splitDigits 2 r10
  some (String.mk (d1 ++ '.' :: d2 ++ '.' :: d3 ++ sp ++ t1 ++ ':' :: t2 ++ ':' :: t3))

/-- The `re.search` position scan: try the anchored matcher at every suffix, left
to right, returning the first (leftmost) match. -/
def scanFirst {β : Type} (f : List Char → Option β) : List Char → Option β
  | [] => f []
  | c :: cs =>
    match f (c :: cs) with
    | some r => some r
    | none => scanFirst f cs

/-- A case-insensitive literal (the pattern chars are given lowercased and the
text is folded with `lowerRu`), consuming the matched prefix. -/
def expectFold : List Char → List Char → Option (List Char)
  | [], l => some l
  | _ :: _, [] => none
  | p :: ps, c :: cs => if lowerRu c == p then expectFold ps cs else none

/-- The label-anchored transfer-date regex
`Дата\s+приёма[-(soft hyphen)\s]*передачи[:\s]+(\d{2}\.\d{2}\.\d{4}\s+\d{2}:\d{2}:\d{2})`
(with `re.IGNORECASE`) anchored at the start of `l`, returning group 1. -/
def matchAnchoredAt (l : List Char) : Option String := do
  let r1 ← expectFold "дата".toList l
  let (_, r2) ← takeSpaces1 r1
  let r3 ← expectFold "приёма".toList r2
  let r4 := r3.dropWhile (fun c => c == '-' || c == '\u00ad' || pyIsSpace c)
  let r5 ← expectFold "передачи".toList r4
  let sp6 := r5.takeWhile (fun c => c == ':' || pyIsSpace c)
  if sp6.isEmpty then none
  else matchDateAt (r5.drop sp6.length)

/-- Search (`re.search`) of the anchored transfer-date pattern over one page text. -/
def searchAnchored (t : String) : Option String := scanFirst matchAnchoredAt t.toList

/-- Search (`re.search`) of the generic date pattern over one page text. -/
def searchGeneric (t : String) : Option String := scanFirst matchDateAt t.toList

/-- The function `extract_pdf_date`: walk the pages in order; a page whose extracted text
is `None` or empty is skipped; otherwise the anchored pattern is tried first
and the generic date pattern second, returning on the first hit; `""` when no
page yields a match.  Each list element is one page's `extract_text()` result. -/
def extract_pdf_date : List (Option String) → String
  | [] => ""
  | p :: rest =>
    match p with
    | none => extract_pdf_date rest
    | some t =>
      if t == "" then extract_pdf_date rest
      else
        match searchAnchored t with
        | some d => d
        | none =>
          match searchGeneric t with
          | some d => d
          | none => extract_pdf_date rest

/-- Modelled from the spec (§4.3): the document date as the specification
words it — "the first match, searched in page order, of a transfer date
pattern anchored on a specific label phrase, falling back to the first
generic `DD.MM.YYYY HH:MM:SS`-shaped substring found in the page text; empty
string if none found in the whole document"; i.e. the anchored pattern is
given document-wide priority over the generic fallback. -/
def specDocumentDate (pages : List (Option String)) : String :=
  let anchored := pages.findSome? fun p => p.bind fun t =>
    if t == "" then none else searchAnchored t
  match anchored with
  | some d => d
  | none =>
    (pages.findSome? fun p => p.bind fun t =>
      if t == "" then none else searchGeneric t).getD ""

/-- The per-page date search actually performed by the code: anchored pattern
first, generic pattern second, on one page. -/
def pageDate (p : Option String) : Option String :=
  p.bind fun t =>
    if t == "" then none
    else
      match searchAnchored t with
      | some d => some d
      | none => searchGeneric t

/-- The amended reading of the date extraction: the first page, in order,
on which either pattern fires, with the anchored pattern preferred within a
page; `""` when no page matches either pattern. -/
def amendedDocumentDate (pages : List (Option String)) : String :=
  (pages.findSome? pageDate).getD ""

/-! ## Theorems -/

/-- The inner duplicate-scan loop with early `break` computes `List.any`. -/
theorem isDuplicateScan_eq_any (hdr : List String) (r : DfRow) :
    ∀ erows : List (List String),
      isDuplicateScan hdr erows r = erows.any (pairMatchB hdr r)
  | [] => rfl
  | e :: rest => by
    simp only [isDuplicateScan, List.any_cons]
    by_cases h : pairMatchB hdr r e = true
    · simp [h]
    · simp [h, isDuplicateScan_eq_any hdr r rest]

/-- The outer `new_rows` loop is an order-preserving filter of the incoming
batch by non-duplication against the pre-existing rows. -/
theorem computeNewRows_eq_filter (hdr : List String) (erows : List (List String)) :
    ∀ df : List DfRow,
      computeNewRows hdr erows df = df.filter (fun x => !isDuplicateScan hdr erows x)
  | [] => rfl
  | r :: rest => by
    simp only [computeNewRows, List.filter_cons]
    by_cases h : isDuplicateScan hdr erows r = true
    · simp [h, computeNewRows_eq_filter hdr erows rest]
    · simp [h, computeNewRows_eq_filter hdr erows rest]

/-- C1 (counterexample): syncing a batch that contains two distinct rows with
the same (place_number, order) pair into an empty store leaves the store with
a duplicated pair, so the claimed invariant does not hold after a successful
sync. -/
theorem sync_duplicate_pair_counterexample :
    ¬ noDupPairs (update_google_sheet []
      [⟨"01.01.2024 10:00:00", "", "a.pdf", "1", "PL-77", "1.0", "ORD551"⟩,
       ⟨"01.01.2024 10:00:00", "", "a.pdf", "2", "PL-77", "1.0", "ORD551"⟩]) := by
  unfold noDupPairs
  decide

/-- C1 (amended): after a sync into a non-empty store, the store is the old
contents followed by the appended batch, and no appended row's
(place_number, order) pair equals the pair of any row that was already in the
store before the call. -/
theorem sync_append_no_existing_pair (hdr : List String) (erows : List (List String))
    (df : List DfRow) :
    update_google_sheet (hdr :: erows) df
      = (hdr :: erows) ++ (computeNewRows hdr erows df).map toSheetRow ∧
    (computeNewRows hdr erows df).all
      (fun r => erows.all (fun e => !pairMatchB hdr r e)) = true := by
  refine ⟨rfl, ?_⟩
  rw [computeNewRows_eq_filter, List.all_eq_true]
  intro r hr
  rw [List.mem_filter] at hr
  have hd : isDuplicateScan hdr erows r = false := by
    simpa using hr.2
  rw [isDuplicateScan_eq_any] at hd
  rw [List.all_eq_true]
  intro e he
  cases hpm : pairMatchB hdr r e with
  | false => simp
  | true =>
    have : erows.any (pairMatchB hdr r) = true := List.any_eq_true.mpr ⟨e, he, hpm⟩
    rw [this] at hd
    exact absurd hd (by simp)

/-- C2: a candidate whose pair matches some pre-existing row contributes no
appended row, a candidate matching none contributes exactly itself, and in
general the appended batch is the order-preserving filter of the input by
non-duplication against the pre-existing rows. -/
theorem sync_dedup_against_existing (hdr : List String) (erows : List (List String))
    (r : DfRow) (df : List DfRow) :
    computeNewRows hdr erows [r]
      = (if erows.any (pairMatchB hdr r) then [] else [r]) ∧
    computeNewRows hdr erows df
      = df.filter (fun x => !isDuplicateScan hdr erows x) := by
  refine ⟨?_, computeNewRows_eq_filter hdr erows df⟩
  simp [computeNewRows, isDuplicateScan_eq_any]

/-- C10: the decision to append a row depends only on the pre-existing rows
(the head of the batch is kept or dropped by that test alone, independently of
the rest of the batch), two incoming copies of a non-duplicate row are both
appended, and an empty store receives the header plus every incoming row with
no pair check at all. -/
theorem sync_batch_independent (hdr : List String) (erows : List (List String))
    (r : DfRow) (df : List DfRow) :
    computeNewRows hdr erows (r :: df)
      = (if erows.any (pairMatchB hdr r) then computeNewRows hdr erows df
         else r :: computeNewRows hdr erows df) ∧
    computeNewRows hdr erows [r, r]
      = (if erows.any (pairMatchB hdr r) then [] else [r, r]) ∧
    update_google_sheet [] df = headersRu :: df.map toSheetRow := by
  refine ⟨?_, ?_, rfl⟩ <;>
    by_cases h : erows.any (pairMatchB hdr r) = true <;>
    simp [computeNewRows, isDuplicateScan_eq_any, h]

/-- C3 (counterexample): a table-origin row with only 2 cells does NOT always
normalize to null — when a cell contains internal whitespace, the flattened
`" | "`-joined text reaches 4 whitespace-delimited tokens and the row falls
through to the text branch and normalizes successfully (with the separator
`"|"` captured as its weight field). -/
theorem two_cell_row_counterexample :
    normalize_row ⟨"s", "d", ["a b", "c"], none⟩ = some ⟨"s", "d", "a", "b", "|", "c"⟩ := by
  decide

/-- C3 (amended): a text-origin row with only 3 whitespace-delimited tokens
normalizes to null, and a table-origin row with only 2 cells normalizes to
null provided its flattened `" | "`-joined text still has fewer than 4
whitespace-delimited tokens. -/
theorem short_row_normalizes_none (item : RawItem)
    (h : (item.raw_cells = [] ∧ (pySplitWs (flatRaw item)).length = 3) ∨
         (item.raw_cells.length = 2 ∧ (pySplitWs (flatRaw item)).length < 4)) :
    normalize_row item = none := by
  unfold normalize_row
  by_cases hh : headerMatch (flatRaw item) = true
  · simp [hh]
  · have h4 : ¬ (4 ≤ (pySplitWs (flatRaw item)).length) := by
      rcases h with ⟨_, hl⟩ | ⟨_, hl⟩ <;> omega
    rcases h with ⟨hc, _⟩ | ⟨hc, _⟩
    · simp [hh, hc, fromTokens, h4]
    · have hne : item.raw_cells.isEmpty = false := by
        cases hcells : item.raw_cells
        · rw [hcells] at hc; simp at hc
        · simp
      have h3 : ¬ (3 ≤ (item.raw_cells.map cleanCell).length) := by
        rw [List.length_map, hc]; omega
      simp [hh, hne, h3, fromTokens, h4]
      omega

/-- C3 (witness for the amended statement): a 3-token text row and a 2-cell
table row without internal whitespace both normalize to null. -/
theorem short_row_normalizes_none_witness :
    normalize_row ⟨"s", "d", [], some "1 x y"⟩ = none ∧
    normalize_row ⟨"s", "d", ["1", "x"], none⟩ = none :=
  ⟨short_row_normalizes_none _ (Or.inl (by decide)),
   short_row_normalizes_none _ (Or.inr (by decide))⟩

/-- C4: whenever the flat text of a raw row matches the header-keyword regex
(case-insensitive `№\s*п/п|Номер места|Вес|Заказ`), `normalize_row` returns
null, so no header row ever produces a normalized row. -/
theorem header_row_normalizes_none (item : RawItem)
    (h : headerMatch (flatRaw item) = true) : normalize_row item = none := by
  unfold normalize_row
  simp [h]

/-- C4 (witness): a concrete header line is matched by the filter and
normalizes to null. -/
theorem header_row_normalizes_none_witness :
    headerMatch (flatRaw ⟨"s", "d", [], some "№ п/п Номер места Вес Заказ"⟩) = true ∧
    normalize_row ⟨"s", "d", [], some "№ п/п Номер места Вес Заказ"⟩ = none :=
  ⟨by decide, header_row_normalizes_none _ (by decide)⟩

/-- C5: the table-origin row `["3", "PL-77", "12.5", "ORD", "551"]` normalizes
to seq `"3"`, place_number `"PL-77"`, weight `"12.5"` and order `"ORD551"`:
the cells from position 3 on are joined and all whitespace is then stripped
from the order field. -/
theorem table_row_example_normalizes :
    normalize_row ⟨"doc_QR1.pdf", "01.01.2024 10:00:00",
        ["3", "PL-77", "12.5", "ORD", "551"], none⟩ =
      some ⟨"doc_QR1.pdf", "01.01.2024 10:00:00", "3", "PL-77", "12.5", "ORD551"⟩ := by
  decide

/-- Helper: the page loop of `extract_pdf_date` computes the first per-page
date, anchored pattern preferred within each page. -/
theorem extract_eq_amended : ∀ pages, extract_pdf_date pages = amendedDocumentDate pages
  | [] => rfl
  | none :: rest => by
    have ih := extract_eq_amended rest
    simpa [extract_pdf_date, amendedDocumentDate, pageDate] using ih
  | some t :: rest => by
    have ih := extract_eq_amended rest
    by_cases ht : t = ""
    · subst ht
      simpa [extract_pdf_date, amendedDocumentDate, pageDate] using ih
    · have ht' : (t == "") = false := by simp [ht]
      cases ha : searchAnchored t with
      | some d =>
        have hp : pageDate (some t) = some d := by simp [pageDate, ht, ha]
        simp [extract_pdf_date, amendedDocumentDate, List.findSome?_cons, hp, ht', ha]
      | none =>
        cases hg : searchGeneric t with
        | some d =>
          have hp : pageDate (some t) = some d := by simp [pageDate, ht, ha, hg]
          simp [extract_pdf_date, amendedDocumentDate, List.findSome?_cons, hp, ht', ha, hg]
        | none =>
          have hp : pageDate (some t) = none := by simp [pageDate, ht, ha, hg]
          simpa [extract_pdf_date, amendedDocumentDate, List.findSome?_cons, hp, ht', ha, hg]
            using ih

/-- C9 (counterexample): with a generic-only date on page 1 and an anchored
transfer date on page 2, the code returns page 1's generic date, while the
claim's document-wide anchored-first search (modelled by `specDocumentDate`)
returns page 2's anchored date. -/
theorem pdf_date_page_order_counterexample :
    extract_pdf_date
        [some "01.01.2020 10:00:00", some "Дата приёма-передачи: 02.02.2021 11:11:11"]
      = "01.01.2020 10:00:00" ∧
    specDocumentDate
        [some "01.01.2020 10:00:00", some "Дата приёма-передачи: 02.02.2021 11:11:11"]
      = "02.02.2021 11:11:11" ∧
    ("01.01.2020 10:00:00" : String) ≠ "02.02.2021 11:11:11" :=
  ⟨by decide, by decide, by decide⟩

/-- C9 (amended): the extracted document date is the result of a per-page
search in page order — on each page with text the anchored transfer-date
pattern is tried first and the generic `DD.MM.YYYY HH:MM:SS` pattern second,
the first page-level hit is returned, and the empty string is returned when
no page matches either pattern. -/
theorem pdf_date_per_page_first (pages : List (Option String)) :
    extract_pdf_date pages = amendedDocumentDate pages :=
  extract_eq_amended pages

/-- Helper: a symbol that is not a QR code leaves the decode state unchanged. -/
theorem recordBarcode_non_qr (st : DecodeState) (b : Barcode)
    (h : (b.btype == "QRCODE") = false) : recordBarcode st b = st := by
  simp [recordBarcode, h]

/-- Helper: a detector answer without any QR symbol leaves the state fixed. -/
theorem foldl_record_no_qr (l : List Barcode)
    (h : l.all (fun b => !(b.btype == "QRCODE")) = true) :
    ∀ st : DecodeState, l.foldl recordBarcode st = st := by
  induction l with
  | nil => intro st; rfl
  | cons b bs ih =>
    intro st
    simp only [List.all_cons, Bool.and_eq_true] at h
    rw [List.foldl_cons, recordBarcode_non_qr st b (by simpa using h.1)]
    exact ih h.2 st

/-- C6: on input bytes that cannot be parsed as an image the decoder returns
the empty URL list, and on a parsed image for which no transform of the
battery yields any QR symbol it also returns the empty URL list (the total
function never fails). -/
theorem decode_empty_on_no_qr (α : Type) (battery : α → List α)
    (detect : α → List Barcode) :
    decode_qr_from_image (none : Option α) battery detect = [] ∧
    ∀ img : α,
      ((battery img).all (fun i => (detect i).all (fun b => !(b.btype == "QRCODE")))) = true →
      decode_qr_from_image (some img) battery detect = [] := by
  refine ⟨rfl, ?_⟩
  intro img h
  rw [List.all_eq_true] at h
  have hfix : ∀ l : List α,
      (∀ i ∈ l, (detect i).all (fun b => !(b.btype == "QRCODE")) = true) →
      ∀ st : DecodeState, l.foldl (test_decode detect) st = st := by
    intro l hl
    induction l with
    | nil => intro st; rfl
    | cons x xs ih =>
      intro st
      rw [List.foldl_cons]
      show xs.foldl (test_decode detect) ((detect x).foldl recordBarcode st) = st
      rw [foldl_record_no_qr (detect x) (hl x (by simp)) st]
      exact ih (fun i hi => hl i (by simp [hi])) st
  show (decodeState (some img) battery detect).found_urls = []
  have hd : decodeState (some img) battery detect
      = (battery img).foldl (test_decode detect) { found_data := [], found_urls := [] } := rfl
  rw [hd, hfix (battery img) h _]

/-- C6 (witness): a trivial battery and a detector that finds nothing yield
the empty URL list on both an unparseable and a parsed image. -/
theorem decode_empty_on_no_qr_witness :
    decode_qr_from_image (none : Option Unit) (fun _ => [()]) (fun _ => []) = [] ∧
    decode_qr_from_image (some ()) (fun _ => [()]) (fun _ => []) = [] :=
  ⟨(decode_empty_on_no_qr Unit (fun _ => [()]) (fun _ => [])).1,
   (decode_empty_on_no_qr Unit (fun _ => [()]) (fun _ => [])).2 () (by decide)⟩

/-- Helper: `set.add` keeps the modelled set duplicate-free. -/
theorem insertNew_nodup (l : List String) (x : String) (h : l.Nodup) :
    (insertNew l x).Nodup := by
  unfold insertNew
  by_cases hx : x ∈ l
  · simpa [hx] using h
  · simp only [hx, if_false]
    rw [List.nodup_append]
    exact ⟨h, List.nodup_singleton x,
      fun a ha hb => by simp at hb; subst hb; exact hx ha⟩

/-- Helper: folding URL insertions keeps `found_urls` duplicate-free. -/
theorem foldl_insertNew_nodup (us : List String) :
    ∀ l : List String, l.Nodup →
      (us.foldl (fun acc u => insertNew acc (rstripUrl u)) l).Nodup := by
  induction us with
  | nil => intro l h; exact h
  | cons u rest ih => intro l h; exact ih _ (insertNew_nodup _ _ h)

/-- Helper: recording one symbol preserves both no-duplicate invariants. -/
theorem recordBarcode_nodup (st : DecodeState) (b : Barcode)
    (h1 : st.found_data.Nodup) (h2 : st.found_urls.Nodup) :
    (recordBarcode st b).found_data.Nodup ∧ (recordBarcode st b).found_urls.Nodup := by
  unfold recordBarcode
  by_cases hq : (b.btype == "QRCODE") = true
  · by_cases hm : b.bdata ∈ st.found_data
    · simp [hq, hm, h1, h2]
    · simp only [hq, hm, if_true, if_false]
      constructor
      · rw [List.nodup_append]
        exact ⟨h1, List.nodup_singleton _,
          fun a ha hb => by simp at hb; subst hb; exact hm ha⟩
      · exact foldl_insertNew_nodup _ _ h2
  · simp [hq, h1, h2]

/-- Helper: recording a whole detector answer preserves the invariants. -/
theorem foldl_recordBarcode_nodup (l : List Barcode) :
    ∀ st : DecodeState, st.found_data.Nodup → st.found_urls.Nodup →
      (l.foldl recordBarcode st).found_data.Nodup ∧
      (l.foldl recordBarcode st).found_urls.Nodup := by
  induction l with
  | nil => intro st h1 h2; exact ⟨h1, h2⟩
  | cons b bs ih =>
    intro st h1 h2
    have hb := recordBarcode_nodup st b h1 h2
    exact ih _ hb.1 hb.2

/-- Helper: running the whole battery preserves the invariants. -/
theorem foldl_testDecode_nodup {α : Type} (detect : α → List Barcode) (l : List α) :
    ∀ st : DecodeState, st.found_data.Nodup → st.found_urls.Nodup →
      (l.foldl (test_decode detect) st).found_data.Nodup ∧
      (l.foldl (test_decode detect) st).found_urls.Nodup := by
  induction l with
  | nil => intro st h1 h2; exact ⟨h1, h2⟩
  | cons x xs ih =>
    intro st h1 h2
    rw [List.foldl_cons]
    have hb := foldl_recordBarcode_nodup (detect x) st h1 h2
    exact ih _ hb.1 hb.2

/-- C7: for every input and every battery/detector behaviour, each distinct
decoded payload is recorded at most once in `found_data` and each extracted
URL appears exactly once in the decoder's result list (content-keyed
deduplication, independent of how many transforms rediscover a payload). -/
theorem decode_dedup (α : Type) (parsed : Option α) (battery : α → List α)
    (detect : α → List Barcode) :
    (decodeState parsed battery detect).found_data.Nodup ∧
    (decode_qr_from_image parsed battery detect).Nodup := by
  cases parsed with
  | none => exact ⟨List.nodup_nil, List.nodup_nil⟩
  | some img =>
    exact foldl_testDecode_nodup detect (battery img) _ List.nodup_nil List.nodup_nil

/-- Helper: the rows contributed by any successfully fetched and parsed URL
are all members of the loop's accumulated row list. -/
theorem processUrls_mem (step : Nat → String → Except String (List RawItem)) :
    ∀ (urls : List String) (base j : Nat) (its : List RawItem),
      j < urls.length → step (base + j) (urls.getD j "") = Except.ok its →
      ∀ r ∈ its.filterMap normalize_row, r ∈ processUrls step base urls
  | [], _, j, _ => by
    intro hj
    simp at hj
  | u :: rest, base, j, its => by
    intro hj hs r hr
    cases j with
    | zero =>
      simp only [processUrls, List.mem_append]
      left
      have hs0 : step base u = Except.ok its := by simpa using hs
      rw [hs0]
      exact hr
    | succ k =>
      simp only [processUrls, List.mem_append]
      right
      have hs' : step (base + 1 + k) (rest.getD k "") = Except.ok its := by
        have : base + 1 + k = base + (k + 1) := by omega
        rw [this]
        simpa using hs
      exact processUrls_mem step rest (base + 1) k its (by simpa using hj) hs' r hr

/-- C8: if decoding yielded a non-empty URL list and fetching/parsing of one
URL fails, `process_single_image` still returns success with no error, its
row list is exactly the per-URL loop's accumulation, and every row
contributed by a sibling URL that fetched and parsed successfully is present
in that row list. -/
theorem process_isolation (urls : List String)
    (step : Nat → String → Except String (List RawItem))
    (i : Nat) (e : String) (hi : i < urls.length)
    (he : step i (urls.getD i "") = Except.error e) :
    (process_single_image urls step).success = true ∧
    (process_single_image urls step).error = none ∧
    (process_single_image urls step).rows = processUrls step 0 urls ∧
    ∀ (j : Nat) (its : List RawItem), j < urls.length →
      step j (urls.getD j "") = Except.ok its →
      ∀ r ∈ its.filterMap normalize_row, r ∈ (process_single_image urls step).rows := by
  have hne : urls.isEmpty = false := by
    cases urls
    · simp at hi
    · simp
  have hur : process_single_image urls step
      = ⟨true, urls.length, processUrls step 0 urls, none⟩ := by
    unfold process_single_image
    simp [hne]
  rw [hur]
  refine ⟨rfl, rfl, rfl, ?_⟩
  intro j its hj hs r hr
  exact processUrls_mem step urls 0 j its hj (by simpa using hs) r hr

/-- The fetch/extract oracle used by the C8 witness: the first URL fails, the
second yields one table row. -/
def stepW : Nat → String → Except String (List RawItem) :=
  fun i _ =>
    if i == 0 then Except.error "boom"
    else Except.ok [⟨"f_QR2.pdf", "", ["7", "PL-1", "2.0", "ORD9"], none⟩]

/-- C8 (witness): with the first URL failing, the call still reports no error
and the second URL's normalized row is present in the result. -/
theorem process_isolation_witness :
    (process_single_image ["u1", "u2"] stepW).error = none ∧
    (⟨"f_QR2.pdf", "", "7", "PL-1", "2.0", "ORD9"⟩ : NormOut) ∈
      (process_single_image ["u1", "u2"] stepW).rows :=
  ⟨(process_isolation ["u1", "u2"] stepW 0 "boom" (by decide) (by rfl)).2.1,
   (process_isolation ["u1", "u2"] stepW 0 "boom" (by decide) (by rfl)).2.2.2
     1 [⟨"f_QR2.pdf", "", ["7", "PL-1", "2.0", "ORD9"], none⟩]
     (by decide) (by rfl) _ (by decide)⟩

end Qr
